import Mathlib

/-! Verification of the notification fan-out service (pull stream, push poll
loop, repeating cancellable timer, timeout guard) against its C++ sources.

Each definition is a shallow embedding of one C++ function or class from
the repository; the single-threaded KJ event loop is modelled by explicit
state passing and by event traces, promise failure by `Except`/dedicated
result constructors, and `uint64_t` counters by `Nat` (the counters only
ever increase by one per issued notification, so they stay far below
`2^64` in every trace considered here; overflow is unreachable).
-/

/-- The `Notification` struct of `schema/notification.capnp`:
`id : UInt64`, `timestamp : Int64` (epoch ms), `kind : Text`
(the optional `payload` bytes are never set by the servers modelled here). -/
structure Notification where
  id : Nat
  timestamp : Int
  kind : String
deriving DecidableEq, Repr

namespace NotifierServerExample
/-! Embedding of `src/src/notifier_server_example.cpp` (pull mode). -/

/-- Structure `SharedState`: the cancellation flag shared between `SubscriptionImpl`
and `StreamImpl` (a `std::atomic<bool>` driven by one event-loop thread). -/
structure SharedState where
  cancelled : Bool
deriving DecidableEq, Repr

/-- Method `SubscriptionImpl::cancel`: if the flag is already set, only log
"already cancelled"; otherwise log the transition and set the flag.
Returns the new state and the log line emitted. -/
def SubscriptionImpl.cancel (state : SharedState) : SharedState × String :=
  if state.cancelled then
    (state, "[Subscription] already cancelled")
  else
    ({ cancelled := true }, "[Subscription] cancel()")

/-- One pull-mode connection: the `SharedState` plus the `StreamImpl`
member `counter` (the per-stream notification id counter, starting at 0). -/
structure PullConn where
  state : SharedState
  counter : Nat
deriving DecidableEq, Repr

/-- Result of one `StreamImpl::read` call: either the immediate
`KJ_FAIL_REQUIRE("stream closed")` (thrown before `timer.afterDelay` is
ever called, so `waitedMs = 0`), or a notification delivered after the
200 ms delay. -/
inductive ReadOutcome where
  | closed (waitedMs : Nat)
  | result (waitedMs : Nat) (n : Notification)
deriving DecidableEq, Repr

/-- Method `StreamImpl::read`: checks `state.cancelled` first and fails with
"stream closed" without awaiting anything; otherwise awaits the 200 ms
delay and fills in a notification with id `counter++`, the current
timestamp and kind `"demo"`. -/
def StreamImpl.read (c : PullConn) (now : Int) : PullConn × ReadOutcome :=
  if c.state.cancelled then
    (c, .closed 0)
  else
    ({ c with counter := c.counter + 1 },
      .result 200 { id := c.counter, timestamp := now, kind := "demo" })

/-- The RPC calls a client can make on one pull-mode subscription. -/
inductive PullOp where
  | cancel
  | read (now : Int)
deriving DecidableEq, Repr

/-- Observable outcome of one `PullOp`. -/
inductive PullEvent where
  | cancelLog (msg : String)
  | readClosed (waitedMs : Nat)
  | readOk (waitedMs : Nat) (n : Notification)
deriving DecidableEq, Repr

/-- Execute one RPC call on the connection. -/
def stepOp (c : PullConn) : PullOp → PullConn × PullEvent
  | .cancel =>
      let r := SubscriptionImpl.cancel c.state
      ({ c with state := r.1 }, .cancelLog r.2)
  | .read now =>
      match StreamImpl.read c now with
      | (c', .closed w) => (c', .readClosed w)
      | (c', .result w n) => (c', .readOk w n)

/-- Execute a sequence of RPC calls, collecting one event per call. -/
def runOps (c : PullConn) : List PullOp → PullConn × List PullEvent
  | [] => (c, [])
  | op :: ops =>
      let r := stepOp c op
      let r' := runOps r.1 ops
      (r'.1, r.2 :: r'.2)

/-- Calling `cancel` sets the shared flag. -/
lemma cancel_sets (c : PullConn) : ((stepOp c .cancel).1).state.cancelled = true := by
  simp only [stepOp, SubscriptionImpl.cancel]
  by_cases h : c.state.cancelled <;> simp [h]

/-- No operation ever clears the shared flag. -/
lemma step_preserves_cancelled (c : PullConn) (op : PullOp)
    (h : c.state.cancelled = true) : ((stepOp c op).1).state.cancelled = true := by
  cases op with
  | cancel => exact cancel_sets c
  | read now => simp [stepOp, StreamImpl.read, h]

/-- From a cancelled connection, every `read` in any following sequence of
calls fails immediately with the closed condition. -/
lemma reads_closed_of_cancelled (ops : List PullOp) :
    ∀ (c : PullConn), c.state.cancelled = true →
      ∀ (i : Nat) (now : Int), ops.get? i = some (.read now) →
        ((runOps c ops).2).get? i = some (.readClosed 0) := by
  induction ops with
  | nil => intro c _ i now h; simp at h
  | cons op ops ih =>
      intro c hc i now h
      cases i with
      | zero =>
          simp at h
          subst h
          simp [runOps, stepOp, StreamImpl.read, hc]
      | succ j =>
          simp only [List.get?] at h
          have hc' := step_preserves_cancelled c op hc
          simpa [runOps] using ih (stepOp c op).1 hc' j now h

/-- C2: Once `cancel()` has set the shared cancelled flag, every `read()`
call that starts afterwards fails with the "stream closed" condition,
immediately (no delay awaited, hence no notification produced), and this
holds for every subsequent read, not just the first. -/
theorem c2_read_after_cancel_always_closed (c : PullConn) (ops : List PullOp)
    (i : Nat) (now : Int) (hop : ops.get? i = some (.read now)) :
    ((runOps (stepOp c .cancel).1 ops).2).get? i = some (.readClosed 0) :=
  reads_closed_of_cancelled ops (stepOp c .cancel).1 (cancel_sets c) i now hop

theorem c2_read_after_cancel_always_closed_witness :
    ([PullOp.read 7, PullOp.read 9].get? 1 = some (.read 9)) ∧
      ((runOps (stepOp ⟨⟨false⟩, 0⟩ .cancel).1 [PullOp.read 7, PullOp.read 9]).2).get? 1
        = some (.readClosed 0) :=
  ⟨by decide,
    c2_read_after_cancel_always_closed ⟨⟨false⟩, 0⟩ [PullOp.read 7, PullOp.read 9] 1 9
      (by decide)⟩

/-- Structure `NotifierImpl`: the single `kj::Own<SharedState> state_` slot. Each
`subscribe` allocates a fresh `SharedState` on the heap and move-assigns
it into `state_`; the move assignment of `kj::Own` destroys the object
previously held. States are identified by allocation order; `destroyed`
records the states dropped by such overwrites. -/
structure NotifierImpl where
  nextStateId : Nat
  state_ : Option Nat
  destroyed : List Nat
deriving DecidableEq, Repr

/-- Method `NotifierImpl::subscribe`: `state_ = kj::heap<SharedState>()`, then the
stream and subscription objects are built over the fresh state, which is
returned (as its id) alongside the updated notifier. -/
def NotifierImpl.subscribe (n : NotifierImpl) : NotifierImpl × Nat :=
  ({ nextStateId := n.nextStateId + 1,
     state_ := some n.nextStateId,
     destroyed :=
       match n.state_ with
       | some old => old :: n.destroyed
       | none => n.destroyed },
   n.nextStateId)

/-- C9: the pull-mode notifier owns at most one `SharedState` at a time
(the `state_` slot, an `Option` here, mirrors the single `kj::Own` field);
each `subscribe` stores a fresh state there, and a second `subscribe`
destroys the first subscription's state: afterwards the notifier owns only
the most recent state, and the first one is gone. -/
theorem c9_subscribe_replaces_state (n : NotifierImpl) :
    ((n.subscribe).1.state_ = some (n.subscribe).2) ∧
      ((n.subscribe).1.subscribe).1.state_ = some ((n.subscribe).1.subscribe).2 ∧
      (n.subscribe).2 ≠ ((n.subscribe).1.subscribe).2 ∧
      (n.subscribe).2 ∈ ((n.subscribe).1.subscribe).1.destroyed ∧
      ((n.subscribe).1.subscribe).1.state_ ≠ some (n.subscribe).2 := by
  refine ⟨rfl, rfl, by simp [NotifierImpl.subscribe], ?_, ?_⟩
  · simp [NotifierImpl.subscribe]
  · simp [NotifierImpl.subscribe]

end NotifierServerExample

namespace PollingServer
/-! Embedding of `src/src/polling_server.cpp` (push mode). -/

/-- Structure `PollingSubscriptionState`: cancellation flag, receiver capability
(identified by a numeric handle) and filter string. -/
structure PollingSubscriptionState where
  cancelled : Bool
  receiver : Nat
  filter : String
deriving DecidableEq, Repr

/-- Method `PollingSubscriptionImpl::cancel`: same shape as the pull-mode cancel;
logs "already cancelled" without touching the state on repeated calls,
logs and sets the flag on the first. -/
def PollingSubscriptionImpl.cancel (state : PollingSubscriptionState) :
    PollingSubscriptionState × String :=
  if state.cancelled then
    (state, "[PollingSubscription] already cancelled")
  else
    ({ state with cancelled := true }, "[PollingSubscription] cancel()")

/-- One `std::weak_ptr<PollingSubscriptionState>` entry of `subscriptions_`.
`alive = false` models an expired weak pointer: the subscription handle
that was the sole strong owner has been discarded, so `lock()` fails. -/
structure WeakEntry where
  alive : Bool
  state : PollingSubscriptionState
deriving DecidableEq, Repr

/-- The predicate of the `std::remove_if` prune at the top of
`sendNotifications`: drop an entry whose `lock()` fails or whose state is
cancelled. -/
def pruneRemoves (w : WeakEntry) : Bool :=
  !w.alive || w.state.cancelled

/-- The prune (`subscriptions_.erase(std::remove_if(...))`) keeps exactly
the entries the predicate does not remove. -/
def pruneSubscriptions (subs : List WeakEntry) : List WeakEntry :=
  subs.filter fun w => !(pruneRemoves w)

/-- One outbound `receiver.onNotification` dispatch built during the tick. -/
structure Dispatch where
  receiver : Nat
  note : Notification
deriving DecidableEq, Repr

/-- The per-subscriber loop of `sendNotifications`: re-locks and re-checks
`cancelled` (`continue` on failure), otherwise builds a notification with
id `notification_counter_++`, the current timestamp and kind
`"polling_demo"`, and starts the one-way dispatch.
Returns the dispatches in order plus the final counter. -/
def dispatchLoop (now : Int) : List WeakEntry → Nat → List Dispatch × Nat
  | [], counter => ([], counter)
  | w :: rest, counter =>
      if !w.alive || w.state.cancelled then
        dispatchLoop now rest counter
      else
        let r := dispatchLoop now rest (counter + 1)
        (⟨w.state.receiver, ⟨counter, now, "polling_demo"⟩⟩ :: r.1, r.2)

/-- The dispatches issued by one `sendNotifications` call (after its
prune). -/
def tickDispatches (now : Int) (subs : List WeakEntry) (counter : Nat) :
    List Dispatch :=
  (dispatchLoop now (pruneSubscriptions subs) counter).1

/-- The registry as left by one `sendNotifications` call. -/
def tickRegistry (subs : List WeakEntry) : List WeakEntry :=
  pruneSubscriptions subs

/-- The notification counter as left by one `sendNotifications` call. -/
def tickCounter (now : Int) (subs : List WeakEntry) (counter : Nat) : Nat :=
  (dispatchLoop now (pruneSubscriptions subs) counter).2

/-- Events observable during one tick of the broadcast loop, in event-loop
order. `dispatchSettle` carries `ok = false` when that subscriber's
dispatch failed; the `catch_` attached to every dispatch logs the failure
and converts it into a normal settlement. -/
inductive TickEvent where
  | pruneRegistry
  | dispatchStart (receiver : Nat) (id : Nat)
  | dispatchSettle (receiver : Nat) (ok : Bool)
  | joinComplete
  | delayStart
deriving DecidableEq, Repr

/-- Event trace of one `sendNotifications` call: the prune runs first,
then every dispatch is started (fan-out), then each settles (success or
caught failure), then `kj::joinPromises` completes; with no dispatches the
function returns `kj::READY_NOW` without a join. `fails r` says whether
the dispatch to receiver `r` fails (receiver unreachable or erroring). -/
def sendNotificationsEvents (now : Int) (subs : List WeakEntry) (counter : Nat)
    (fails : Nat → Bool) : List TickEvent :=
  let ds := tickDispatches now subs counter
  [.pruneRegistry]
    ++ ds.map (fun d => .dispatchStart d.receiver d.note.id)
    ++ ds.map (fun d => .dispatchSettle d.receiver (!fails d.receiver))
    ++ (if ds.isEmpty then [] else [.joinComplete])

/-- Event trace of one iteration of `startNotificationLoop`:
`sendNotifications()` runs to completion, and only then is the next 1 s
delay requested from the timer (`.then` chaining). -/
def tickEvents (now : Int) (subs : List WeakEntry) (counter : Nat)
    (fails : Nat → Bool) : List TickEvent :=
  sendNotificationsEvents now subs counter fails ++ [.delayStart]

/-- Runs `n` iterations of the broadcast loop. Between ticks the environment
may abandon strong handles or cancel subscriptions; `env k` rewrites the
registry before tick `k`'s delay expires (it does not touch the
notification counter, which is private to the notifier). -/
def loopEvents (fails : Nat → Bool) (env : Nat → List WeakEntry → List WeakEntry)
    (now : Int) : Nat → Nat → List WeakEntry → Nat → List TickEvent
  | 0, _, _, _ => []
  | n + 1, k, subs, counter =>
      tickEvents now subs counter fails
        ++ loopEvents fails env now n (k + 1) (env k (tickRegistry subs))
            (tickCounter now subs counter)

/-- Ids issued by one tick, in dispatch order. -/
def tickIssuedIds (now : Int) (subs : List WeakEntry) (counter : Nat) : List Nat :=
  (tickDispatches now subs counter).map fun d => d.note.id

/-- Ids issued across `n` ticks of the broadcast loop. -/
def loopIssuedIds (env : Nat → List WeakEntry → List WeakEntry) (now : Int) :
    Nat → Nat → List WeakEntry → Nat → List Nat
  | 0, _, _, _ => []
  | n + 1, k, subs, counter =>
      tickIssuedIds now subs counter
        ++ loopIssuedIds env now n (k + 1) (env k (tickRegistry subs))
            (tickCounter now subs counter)

/-- The delivery-eligibility condition of the spec: strong handle still
alive and not cancelled. -/
def eligible (w : WeakEntry) : Bool :=
  w.alive && !w.state.cancelled

lemma pruneRemoves_eq (w : WeakEntry) : (!(pruneRemoves w)) = eligible w := by
  cases h1 : w.alive <;> cases h2 : w.state.cancelled <;>
    simp [pruneRemoves, eligible, h1, h2]

lemma prune_eq_filter (subs : List WeakEntry) :
    pruneSubscriptions subs = subs.filter eligible := by
  unfold pruneSubscriptions
  exact List.filter_congr fun w _ => pruneRemoves_eq w

lemma dispatchLoop_spec (now : Int) (l : List WeakEntry) : ∀ c : Nat,
    ((dispatchLoop now l c).1.map fun d => d.receiver)
        = ((l.filter eligible).map fun w => w.state.receiver)
    ∧ ((dispatchLoop now l c).1.map fun d => d.note.id)
        = List.range' c (l.filter eligible).length
    ∧ (dispatchLoop now l c).2 = c + (l.filter eligible).length := by
  induction l with
  | nil => intro c; simp [dispatchLoop]
  | cons w rest ih =>
      intro c
      cases ha : w.alive <;> cases hc : w.state.cancelled
      · exact ⟨by simp [dispatchLoop, eligible, ha, hc, (ih c).1],
          by simp [dispatchLoop, eligible, ha, hc, (ih c).2.1],
          by simp [dispatchLoop, eligible, ha, hc, (ih c).2.2]⟩
      · exact ⟨by simp [dispatchLoop, eligible, ha, hc, (ih c).1],
          by simp [dispatchLoop, eligible, ha, hc, (ih c).2.1],
          by simp [dispatchLoop, eligible, ha, hc, (ih c).2.2]⟩
      · refine ⟨?_, ?_, ?_⟩
        · simp [dispatchLoop, eligible, ha, hc, (ih (c + 1)).1]
        · simp [dispatchLoop, eligible, ha, hc, (ih (c + 1)).2.1, List.range'_succ]
        · simp [dispatchLoop, eligible, ha, hc, (ih (c + 1)).2.2]; omega
      · exact ⟨by simp [dispatchLoop, eligible, ha, hc, (ih c).1],
          by simp [dispatchLoop, eligible, ha, hc, (ih c).2.1],
          by simp [dispatchLoop, eligible, ha, hc, (ih c).2.2]⟩

lemma filter_pruned (subs : List WeakEntry) :
    (pruneSubscriptions subs).filter eligible = pruneSubscriptions subs := by
  rw [prune_eq_filter, List.filter_filter]
  exact List.filter_congr fun w _ => by cases eligible w <;> simp

lemma tickDispatches_receivers (now : Int) (subs : List WeakEntry) (counter : Nat) :
    ((tickDispatches now subs counter).map fun d => d.receiver)
      = ((subs.filter eligible).map fun w => w.state.receiver) := by
  rw [tickDispatches, (dispatchLoop_spec now (pruneSubscriptions subs) counter).1,
    filter_pruned, prune_eq_filter]

lemma tickIssuedIds_eq (now : Int) (subs : List WeakEntry) (counter : Nat) :
    tickIssuedIds now subs counter
      = List.range' counter (subs.filter eligible).length := by
  rw [tickIssuedIds, tickDispatches,
    (dispatchLoop_spec now (pruneSubscriptions subs) counter).2.1,
    filter_pruned, prune_eq_filter]

lemma tickCounter_eq (now : Int) (subs : List WeakEntry) (counter : Nat) :
    tickCounter now subs counter = counter + (subs.filter eligible).length := by
  rw [tickCounter, (dispatchLoop_spec now (pruneSubscriptions subs) counter).2.2,
    filter_pruned, prune_eq_filter]

/-- C5: in a broadcast tick, a subscriber is dispatched to iff its state is
still reachable (weak pointer locks) and not cancelled: the receivers
dispatched to are exactly those of the eligible entries, every entry left
in the registry by the tick's prune is alive and uncancelled, and every
alive uncancelled entry survives the prune. In particular an entry whose
strong handle was discarded before the tick gets no dispatch and is gone
from the registry after the prune. -/
theorem c5_dispatch_iff_live_uncancelled (now : Int) (subs : List WeakEntry)
    (counter : Nat) :
    (((tickDispatches now subs counter).map fun d => d.receiver)
        = ((subs.filter fun w => w.alive && !w.state.cancelled).map
            fun w => w.state.receiver))
    ∧ (∀ w ∈ tickRegistry subs, w.alive = true ∧ w.state.cancelled = false)
    ∧ (∀ w ∈ subs, w.alive = true → w.state.cancelled = false →
        w ∈ tickRegistry subs) := by
  refine ⟨tickDispatches_receivers now subs counter, ?_, ?_⟩
  · intro w hw
    rw [tickRegistry, prune_eq_filter] at hw
    have := (List.mem_filter.1 hw).2
    simp only [eligible, Bool.and_eq_true, Bool.not_eq_true'] at this
    exact this
  · intro w hw ha hc
    rw [tickRegistry, prune_eq_filter]
    exact List.mem_filter.2 ⟨hw, by simp [eligible, ha, hc]⟩

theorem c5_dispatch_iff_live_uncancelled_witness :
    ((tickDispatches 0 [⟨true, ⟨false, 11, "a"⟩⟩, ⟨false, ⟨false, 22, "b"⟩⟩] 0).map
        fun d => d.receiver) = [11]
    ∧ (⟨false, ⟨false, 22, "b"⟩⟩ : WeakEntry)
        ∉ tickRegistry [⟨true, ⟨false, 11, "a"⟩⟩, ⟨false, ⟨false, 22, "b"⟩⟩] := by
  have h := c5_dispatch_iff_live_uncancelled 0
    [⟨true, ⟨false, 11, "a"⟩⟩, ⟨false, ⟨false, 22, "b"⟩⟩] 0
  refine ⟨by rw [h.1]; decide, fun hmem => ?_⟩
  have := (h.2.1 _ hmem).1
  simp at this

lemma delayStart_not_mem_send (now : Int) (subs : List WeakEntry) (counter : Nat)
    (fails : Nat → Bool) :
    TickEvent.delayStart ∉ sendNotificationsEvents now subs counter fails := by
  intro h
  simp only [sendNotificationsEvents, List.mem_append] at h
  rcases h with ((h | h) | h) | h
  · simp at h
  · rcases List.mem_map.1 h with ⟨d, _, hd⟩; cases hd
  · rcases List.mem_map.1 h with ⟨d, _, hd⟩; cases hd
  · by_cases he : (tickDispatches now subs counter).isEmpty <;> simp [he] at h

lemma tickEvents_eq (now : Int) (subs : List WeakEntry) (counter : Nat)
    (fails : Nat → Bool) :
    tickEvents now subs counter fails
      = sendNotificationsEvents now subs counter fails ++ [.delayStart] := rfl

/-- C4: within each tick the registry prune is the first event (before any
dispatch is started), every dispatch settles before the next delay is
requested, the delay request is the unique last event of the tick, and the
loop produces the traces of consecutive ticks one after the other, the
next tick evaluated on the state left by the current one (no overlap). -/
theorem c4_prune_before_dispatch_no_overlap (now : Int) (subs : List WeakEntry)
    (counter : Nat) (fails : Nat → Bool)
    (env : Nat → List WeakEntry → List WeakEntry) (n k : Nat) :
    (tickEvents now subs counter fails).head? = some .pruneRegistry
    ∧ (∀ i r id, (tickEvents now subs counter fails).get? i
          = some (.dispatchStart r id) → 0 < i)
    ∧ (∀ i j r ok, (tickEvents now subs counter fails).get? i
          = some (.dispatchSettle r ok) →
        (tickEvents now subs counter fails).get? j = some .delayStart → i < j)
    ∧ (tickEvents now subs counter fails).getLast? = some .delayStart
    ∧ (tickEvents now subs counter fails).count .delayStart = 1
    ∧ loopEvents fails env now (n + 1) k subs counter
        = tickEvents now subs counter fails
          ++ loopEvents fails env now n (k + 1) (env k (tickRegistry subs))
              (tickCounter now subs counter) := by
  have hnotmem := delayStart_not_mem_send now subs counter fails
  set body := sendNotificationsEvents now subs counter fails with hbody
  refine ⟨rfl, ?_, ?_, ?_, ?_, rfl⟩
  · intro i r id h
    cases i with
    | zero =>
        rw [tickEvents_eq, ← hbody] at h
        have : body.head? = some TickEvent.pruneRegistry := rfl
        cases hb : body with
        | nil => rw [hb] at this; cases this
        | cons e rest =>
            rw [hb] at this h
            simp only [List.head?] at this
            simp only [List.cons_append, List.get?] at h
            rw [(Option.some_inj.1 this)] at h
            cases Option.some_inj.1 h
    | succ j => exact Nat.succ_pos j
  · intro i j r ok hi hj
    rw [tickEvents_eq, ← hbody] at hi hj
    have hjlen : j = body.length := by
      have hjlt : j < (body ++ [TickEvent.delayStart]).length := by
        exact List.get?_eq_some.1 hj |>.1
      rw [List.length_append, List.length_singleton] at hjlt
      by_contra hne
      have hjlt' : j < body.length := by omega
      have : TickEvent.delayStart ∈ body := by
        have := List.get?_eq_some.1 hj |>.2
        rw [List.get?_append hjlt'] at hj
        exact List.get?_mem hj
      exact hnotmem this
    have hilen : i < (body ++ [TickEvent.delayStart]).length :=
      List.get?_eq_some.1 hi |>.1
    rw [List.length_append, List.length_singleton] at hilen
    rcases Nat.lt_or_ge i body.length with hlt | hge
    · omega
    · exfalso
      have : i = body.length := by omega
      subst this
      rw [List.get?_append_right (Nat.le_refl _)] at hi
      simp at hi
  · rw [tickEvents_eq, ← hbody, List.getLast?_concat]
  · rw [tickEvents_eq, ← hbody, List.count_append]
    rw [List.count_eq_zero.2 hnotmem]
    rfl

theorem c4_prune_before_dispatch_no_overlap_witness :
    ((tickEvents 0 [⟨true, ⟨false, 11, "a"⟩⟩] 0 (fun _ => false)).get? 1
        = some (.dispatchStart 11 0))
    ∧ 0 < 1 :=
  ⟨by decide,
    (c4_prune_before_dispatch_no_overlap 0 [⟨true, ⟨false, 11, "a"⟩⟩] 0 (fun _ => false)
        (fun _ s => s) 0 0).2.1 1 11 0 (by decide)⟩

/-- Projection selecting dispatch-start events. -/
def startOf? (e : TickEvent) : Option (Nat × Nat) :=
  match e with
  | .dispatchStart r id => some (r, id)
  | _ => none

/-- The dispatch-start events of a trace, with their receiver and id. -/
def startsOf (evs : List TickEvent) : List (Nat × Nat) :=
  evs.filterMap startOf?

lemma startsOf_starts (ds : List Dispatch) :
    List.filterMap startOf? (ds.map fun d => TickEvent.dispatchStart d.receiver d.note.id)
      = ds.map fun d => (d.receiver, d.note.id) := by
  induction ds with
  | nil => rfl
  | cons d ds ih => simpa [List.filterMap_cons, startOf?] using ih

lemma startsOf_settles (fails : Nat → Bool) (ds : List Dispatch) :
    List.filterMap startOf?
        (ds.map fun d => TickEvent.dispatchSettle d.receiver (!fails d.receiver))
      = [] := by
  induction ds with
  | nil => rfl
  | cons d ds ih => simpa [List.filterMap_cons, startOf?] using ih

lemma startsOf_tick (now : Int) (subs : List WeakEntry) (counter : Nat)
    (fails : Nat → Bool) :
    startsOf (tickEvents now subs counter fails)
      = (tickDispatches now subs counter).map fun d => (d.receiver, d.note.id) := by
  rw [tickEvents_eq]
  simp only [startsOf, sendNotificationsEvents, List.filterMap_append]
  rw [startsOf_starts, startsOf_settles]
  by_cases he : (tickDispatches now subs counter).isEmpty <;>
    simp [he, startOf?, List.filterMap_cons]

/-- C6: a failing dispatch is caught and logged at its own boundary: every
eligible subscriber's dispatch of the tick still starts (the start events
are the same under any failure pattern), the failing one settles with
`ok = false` while a non-failing one settles with `ok = true`, the tick's
join still completes, and the next tick's delay is still scheduled. -/
theorem c6_dispatch_failure_isolated (now : Int) (subs : List WeakEntry)
    (counter : Nat) (fails fails' : Nat → Bool) :
    (∀ d ∈ tickDispatches now subs counter,
        TickEvent.dispatchStart d.receiver d.note.id
            ∈ tickEvents now subs counter fails
        ∧ TickEvent.dispatchSettle d.receiver (!fails d.receiver)
            ∈ tickEvents now subs counter fails)
    ∧ (tickDispatches now subs counter ≠ [] →
        TickEvent.joinComplete ∈ tickEvents now subs counter fails)
    ∧ TickEvent.delayStart ∈ tickEvents now subs counter fails
    ∧ startsOf (tickEvents now subs counter fails)
        = startsOf (tickEvents now subs counter fails') := by
  refine ⟨?_, ?_, ?_, ?_⟩
  · intro d hd
    constructor
    · rw [tickEvents_eq]
      refine List.mem_append_left _ ?_
      simp only [sendNotificationsEvents]
      refine List.mem_append_left _ (List.mem_append_left _ ?_)
      exact List.mem_append_right _ (List.mem_map.2 ⟨d, hd, rfl⟩)
    · rw [tickEvents_eq]
      refine List.mem_append_left _ ?_
      simp only [sendNotificationsEvents]
      refine List.mem_append_left _ ?_
      exact List.mem_append_right _ (List.mem_map.2 ⟨d, hd, rfl⟩)
  · intro hne
    rw [tickEvents_eq]
    refine List.mem_append_left _ ?_
    simp only [sendNotificationsEvents]
    refine List.mem_append_right _ ?_
    have : (tickDispatches now subs counter).isEmpty = false := by
      cases h : tickDispatches now subs counter with
      | nil => exact absurd h hne
      | cons a l => rfl
    simp [this]
  · rw [tickEvents_eq]
    exact List.mem_append_right _ (List.mem_singleton.2 rfl)
  · rw [startsOf_tick, startsOf_tick]

theorem c6_dispatch_failure_isolated_witness :
    (TickEvent.dispatchStart 11 0
        ∈ tickEvents 0 [⟨true, ⟨false, 11, "a"⟩⟩, ⟨true, ⟨false, 22, "b"⟩⟩] 0
            (fun r => r == 22)
      ∧ TickEvent.dispatchSettle 11 true
        ∈ tickEvents 0 [⟨true, ⟨false, 11, "a"⟩⟩, ⟨true, ⟨false, 22, "b"⟩⟩] 0
            (fun r => r == 22))
    ∧ TickEvent.joinComplete
        ∈ tickEvents 0 [⟨true, ⟨false, 11, "a"⟩⟩, ⟨true, ⟨false, 22, "b"⟩⟩] 0
            (fun r => r == 22) := by
  have h := c6_dispatch_failure_isolated 0
    [⟨true, ⟨false, 11, "a"⟩⟩, ⟨true, ⟨false, 22, "b"⟩⟩] 0 (fun r => r == 22)
    (fun _ => false)
  exact ⟨h.1 ⟨11, ⟨0, 0, "polling_demo"⟩⟩ (by decide), h.2.1 (by decide)⟩

/-- C8: for both subscription types, `cancel` is idempotent: the first
call leaves the flag set, a repeated call leaves the state exactly as the
first call left it, returns normally with only the "already cancelled" log
line, and the transition log line is emitted only when the flag was not
yet set (on an already-cancelled state, the state is untouched and only
the "already" line is logged). -/
theorem c8_cancel_idempotent (s : NotifierServerExample.SharedState)
    (t : PollingSubscriptionState) :
    (((NotifierServerExample.SubscriptionImpl.cancel s).1).cancelled = true
      ∧ (NotifierServerExample.SubscriptionImpl.cancel
            (NotifierServerExample.SubscriptionImpl.cancel s).1)
          = ((NotifierServerExample.SubscriptionImpl.cancel s).1,
              "[Subscription] already cancelled")
      ∧ (s.cancelled = false →
          (NotifierServerExample.SubscriptionImpl.cancel s).2 = "[Subscription] cancel()")
      ∧ (s.cancelled = true →
          (NotifierServerExample.SubscriptionImpl.cancel s)
            = (s, "[Subscription] already cancelled")))
    ∧ (((PollingSubscriptionImpl.cancel t).1).cancelled = true
      ∧ (PollingSubscriptionImpl.cancel (PollingSubscriptionImpl.cancel t).1)
          = ((PollingSubscriptionImpl.cancel t).1,
              "[PollingSubscription] already cancelled")
      ∧ (t.cancelled = false →
          (PollingSubscriptionImpl.cancel t).2 = "[PollingSubscription] cancel()")
      ∧ (t.cancelled = true →
          (PollingSubscriptionImpl.cancel t)
            = (t, "[PollingSubscription] already cancelled"))) := by
  constructor
  · refine ⟨?_, ?_, ?_, ?_⟩
    · by_cases h : s.cancelled <;> simp [NotifierServerExample.SubscriptionImpl.cancel, h]
    · by_cases h : s.cancelled <;> simp [NotifierServerExample.SubscriptionImpl.cancel, h]
    · intro h; simp [NotifierServerExample.SubscriptionImpl.cancel, h]
    · intro h; simp [NotifierServerExample.SubscriptionImpl.cancel, h]
  · refine ⟨?_, ?_, ?_, ?_⟩
    · by_cases h : t.cancelled <;> simp [PollingSubscriptionImpl.cancel, h]
    · by_cases h : t.cancelled <;> simp [PollingSubscriptionImpl.cancel, h]
    · intro h; simp [PollingSubscriptionImpl.cancel, h]
    · intro h; simp [PollingSubscriptionImpl.cancel, h]

theorem c8_cancel_idempotent_witness :
    (NotifierServerExample.SubscriptionImpl.cancel ⟨false⟩).2 = "[Subscription] cancel()"
    ∧ (PollingSubscriptionImpl.cancel
        (PollingSubscriptionImpl.cancel ⟨false, 5, "f"⟩).1)
      = ((PollingSubscriptionImpl.cancel ⟨false, 5, "f"⟩).1,
          "[PollingSubscription] already cancelled") :=
  ⟨(c8_cancel_idempotent ⟨false⟩ ⟨false, 5, "f"⟩).1.2.2.1 rfl,
    (c8_cancel_idempotent ⟨false⟩ ⟨false, 5, "f"⟩).2.2.1⟩

lemma chain'_lt_range' (c k : Nat) : List.Chain' (· < ·) (List.range' c k) := by
  cases k with
  | zero => simp
  | succ k =>
      rw [List.range'_succ]
      exact List.chain_lt_range' c k Nat.one_pos

lemma mem_range'_bounds {x c k : Nat} (h : x ∈ List.range' c k) :
    c ≤ x ∧ x < c + k := by
  rcases List.mem_range'.1 h with ⟨i, hi, rfl⟩
  omega

/-- Across any number of broadcast ticks, with the environment free to
abandon or cancel subscribers between ticks, the issued ids are exactly a
contiguous run starting at the current counter of each tick, hence
strictly increasing; every issued id is at least the starting counter. -/
lemma loopIssuedIds_chain (env : Nat → List WeakEntry → List WeakEntry) (now : Int) :
    ∀ (n k : Nat) (subs : List WeakEntry) (counter : Nat),
      List.Chain' (· < ·) (loopIssuedIds env now n k subs counter)
      ∧ ∀ x ∈ loopIssuedIds env now n k subs counter, counter ≤ x := by
  intro n
  induction n with
  | zero => intro k subs counter; exact ⟨by simp [loopIssuedIds], by simp [loopIssuedIds]⟩
  | succ m ih =>
      intro k subs counter
      obtain ⟨ihchain, ihbound⟩ :=
        ih (k + 1) (env k (tickRegistry subs)) (tickCounter now subs counter)
      have hlen := tickIssuedIds_eq now subs counter
      have hcnt := tickCounter_eq now subs counter
      constructor
      · show List.Chain' (· < ·) (tickIssuedIds now subs counter ++ _)
        apply List.Chain'.append
        · rw [hlen]; exact chain'_lt_range' _ _
        · exact ihchain
        · intro x hx y hy
          have hx' : x ∈ List.range' counter (subs.filter eligible).length := by
            rw [← hlen]; exact List.mem_of_mem_getLast? hx
          have hy' := ihbound y (List.mem_of_mem_head? hy)
          have := mem_range'_bounds hx'
          omega
      · intro x hx
        rcases List.mem_append.1 hx with h | h
        · rw [hlen] at h; exact (mem_range'_bounds h).1
        · have := ihbound x h; omega

end PollingServer

namespace NotifierServerExample

/-- Whole-notifier view of the pull mode: the `NotifierImpl` plus every
`SharedState` and `StreamImpl` it has created so far. Subscription and
stream number `i` are bound to state number `i` (the state allocated by
the `i`-th `subscribe`); `states` holds each state's cancelled flag and
`counters` each stream's private `counter` member. -/
structure PullSystem where
  notifier : NotifierImpl
  states : List Bool
  counters : List Nat
deriving DecidableEq, Repr

/-- A freshly constructed `NotifierImpl` with no subscriptions. -/
def initSystem : PullSystem := ⟨⟨0, none, []⟩, [], []⟩

/-- RPC calls a set of clients can make against one pull-mode notifier. -/
inductive SysOp where
  | subscribe
  | cancelSub (i : Nat)
  | readStream (i : Nat) (now : Int)
deriving DecidableEq, Repr

/-- Execute one call. A `read` on a stream whose `SharedState` has been
destroyed by a later `subscribe` (see `NotifierImpl.subscribe`) is
undefined behaviour in the C++ source; it is modelled as issuing nothing.
A `read` on a cancelled stream fails with "stream closed" and issues
nothing; a successful `read` issues the stream's counter and bumps it. -/
def sysStep (s : PullSystem) : SysOp → PullSystem × Option Notification
  | .subscribe =>
      ({ notifier := (s.notifier.subscribe).1,
         states := s.states ++ [false],
         counters := s.counters ++ [0] }, none)
  | .cancelSub i =>
      if i ∈ s.notifier.destroyed then (s, none)
      else
        match s.states[i]? with
        | some flag =>
            ({ s with states := s.states.set i ((SubscriptionImpl.cancel ⟨flag⟩).1).cancelled },
              none)
        | none => (s, none)
  | .readStream i now =>
      if i ∈ s.notifier.destroyed then (s, none)
      else
        match s.states[i]?, s.counters[i]? with
        | some flag, some c =>
            if flag then (s, none)
            else
              ({ s with counters := s.counters.set i (c + 1) },
                some { id := c, timestamp := now, kind := "demo" })
        | _, _ => (s, none)

/-- The ids a single call contributes to the stream-`i` issue sequence. -/
def issueOf (i : Nat) (op : SysOp) (out : Option Notification) : List Nat :=
  match op, out with
  | .readStream j _, some n => if j = i then [n.id] else []
  | _, _ => []

/-- All `Notification.id` values issued by the notifier instance over a
sequence of calls, in issue order. -/
def issuedIds (s : PullSystem) : List SysOp → List Nat
  | [] => []
  | op :: ops =>
      (match (sysStep s op).2 with
       | some n => [n.id]
       | none => []) ++ issuedIds (sysStep s op).1 ops

/-- The ids issued by reads on stream `i` only. -/
def issuedOnStream (i : Nat) (s : PullSystem) : List SysOp → List Nat
  | [] => []
  | op :: ops =>
      issueOf i op (sysStep s op).2 ++ issuedOnStream i (sysStep s op).1 ops

/-- The calls of the counterexample: two subscriptions on one notifier,
each read once while its state is still alive. -/
def c3ops : List SysOp := [.subscribe, .readStream 0 10, .subscribe, .readStream 1 20]

/-- The current value of stream `i`'s counter (0 if the stream does not
exist yet). -/
def streamCounter (s : PullSystem) (i : Nat) : Nat := (s.counters[i]?).getD 0

lemma issueOf_subscribe (i : Nat) (out : Option Notification) :
    issueOf i .subscribe out = [] := by
  cases out <;> rfl

lemma issueOf_cancelSub (i j : Nat) (out : Option Notification) :
    issueOf i (.cancelSub j) out = [] := by
  cases out <;> rfl

lemma issueOf_read_none (i j : Nat) (now : Int) :
    issueOf i (.readStream j now) none = [] := rfl

lemma issueOf_read_some (i j : Nat) (now : Int) (n : Notification) :
    issueOf i (.readStream j now) (some n) = if j = i then [n.id] else [] := rfl

lemma streamCounter_step (s : PullSystem) (op : SysOp) (i : Nat) :
    streamCounter s i ≤ streamCounter (sysStep s op).1 i := by
  cases op with
  | subscribe =>
      simp only [sysStep, streamCounter]
      rcases Nat.lt_or_ge i s.counters.length with h | h
      · rw [List.getElem?_append_left h]
      · rw [List.getElem?_eq_none h]
        simp
  | cancelSub j =>
      by_cases hd : j ∈ s.notifier.destroyed
      · simp [sysStep, hd]
      · cases hs : s.states[j]? with
        | none => simp [sysStep, hd, hs]
        | some flag => simp [sysStep, hd, hs, streamCounter]
  | readStream j now =>
      by_cases hd : j ∈ s.notifier.destroyed
      · simp [sysStep, hd]
      · cases hs : s.states[j]? with
        | none => simp [sysStep, hd, hs]
        | some flag =>
            cases hc : s.counters[j]? with
            | none => simp [sysStep, hd, hs, hc]
            | some c =>
                cases flag with
                | true => simp [sysStep, hd, hs, hc]
                | false =>
                    simp only [sysStep, if_neg hd, hs, hc, Bool.false_eq_true, if_false,
                      streamCounter]
                    by_cases hij : i = j
                    · subst hij
                      have hlt : i < s.counters.length := by
                        by_contra hge
                        rw [List.getElem?_eq_none (Nat.le_of_not_lt hge)] at hc
                        cases hc
                      rw [List.getElem?_set_self hlt, hc]
                      simp
                    · rw [List.getElem?_set_ne (fun h => hij h.symm)]

lemma issue_on_stream (s : PullSystem) (i : Nat) (now : Int) (n : Notification)
    (h : (sysStep s (.readStream i now)).2 = some n) :
    n.id = streamCounter s i
    ∧ streamCounter (sysStep s (.readStream i now)).1 i = n.id + 1 := by
  by_cases hd : i ∈ s.notifier.destroyed
  · simp [sysStep, hd] at h
  · cases hs : s.states[i]? with
    | none => simp [sysStep, hd, hs] at h
    | some flag =>
        cases hc : s.counters[i]? with
        | none => simp [sysStep, hd, hs, hc] at h
        | some c =>
            cases flag with
            | true => simp [sysStep, hd, hs, hc] at h
            | false =>
                simp only [sysStep, if_neg hd, hs, hc, Bool.false_eq_true, if_false,
                  Option.some_inj] at h
                subst h
                have hlt : i < s.counters.length := by
                  by_contra hge
                  rw [List.getElem?_eq_none (Nat.le_of_not_lt hge)] at hc
                  cases hc
                constructor
                · simp [streamCounter, hc]
                · simp only [sysStep, if_neg hd, hs, hc, Bool.false_eq_true, if_false,
                    streamCounter]
                  rw [List.getElem?_set_self hlt]
                  rfl

lemma issuedOnStream_chain (i : Nat) (ops : List SysOp) : ∀ s : PullSystem,
    List.Chain' (· < ·) (issuedOnStream i s ops)
    ∧ ∀ x ∈ issuedOnStream i s ops, streamCounter s i ≤ x := by
  induction ops with
  | nil => intro s; exact ⟨by simp [issuedOnStream], by simp [issuedOnStream]⟩
  | cons op ops ih =>
      intro s
      obtain ⟨ihc, ihb⟩ := ih (sysStep s op).1
      have hmono := streamCounter_step s op i
      cases op with
      | subscribe =>
          refine ⟨?_, ?_⟩
          · rw [issuedOnStream, issueOf_subscribe, List.nil_append]
            exact ihc
          · intro x hx
            rw [issuedOnStream, issueOf_subscribe, List.nil_append] at hx
            exact Nat.le_trans hmono (ihb x hx)
      | cancelSub j =>
          refine ⟨?_, ?_⟩
          · rw [issuedOnStream, issueOf_cancelSub, List.nil_append]
            exact ihc
          · intro x hx
            rw [issuedOnStream, issueOf_cancelSub, List.nil_append] at hx
            exact Nat.le_trans hmono (ihb x hx)
      | readStream j now =>
          cases hr : (sysStep s (.readStream j now)).2 with
          | none =>
              refine ⟨?_, ?_⟩
              · rw [issuedOnStream, hr, issueOf_read_none, List.nil_append]
                exact ihc
              · intro x hx
                rw [issuedOnStream, hr, issueOf_read_none, List.nil_append] at hx
                exact Nat.le_trans hmono (ihb x hx)
          | some n =>
              by_cases hj : j = i
              · subst hj
                obtain ⟨hid, hnext⟩ := issue_on_stream s j now n hr
                refine ⟨?_, ?_⟩
                · rw [issuedOnStream, hr, issueOf_read_some, if_pos rfl,
                    List.singleton_append]
                  refine List.Chain'.cons' ihc ?_
                  intro y hy
                  have := ihb y (List.mem_of_mem_head? hy)
                  omega
                · intro x hx
                  rw [issuedOnStream, hr, issueOf_read_some, if_pos rfl,
                    List.singleton_append, List.mem_cons] at hx
                  rcases hx with rfl | hx
                  · omega
                  · have := ihb x hx
                    omega
              · refine ⟨?_, ?_⟩
                · rw [issuedOnStream, hr, issueOf_read_some, if_neg hj, List.nil_append]
                  exact ihc
                · intro x hx
                  rw [issuedOnStream, hr, issueOf_read_some, if_neg hj,
                    List.nil_append] at hx
                  exact Nat.le_trans hmono (ihb x hx)

end NotifierServerExample

/-- C3 counterexample: one pull-mode notifier instance, two subscriptions,
one read each (each while its own state is alive): both reads are issued
id 0 by the same notifier instance, so the sequence of ids it issues is
neither strictly increasing nor duplicate-free. The per-stream `counter`
member of `StreamImpl` restarts at 0 for every subscription. -/
theorem c3_counterexample_ids_reused :
    NotifierServerExample.issuedIds NotifierServerExample.initSystem
        NotifierServerExample.c3ops = [0, 0]
    ∧ ¬ List.Chain' (· < ·)
        (NotifierServerExample.issuedIds NotifierServerExample.initSystem
          NotifierServerExample.c3ops)
    ∧ ¬ (NotifierServerExample.issuedIds NotifierServerExample.initSystem
          NotifierServerExample.c3ops).Nodup := by
  have h : NotifierServerExample.issuedIds NotifierServerExample.initSystem
      NotifierServerExample.c3ops = [0, 0] := by decide
  refine ⟨h, ?_, ?_⟩
  · rw [h]
    exact fun hch => absurd (List.chain'_cons.1 hch).1 (lt_irrefl 0)
  · rw [h]
    simp

/-- Behaviour of the operation promise handed to `timeoutSafe`, in the
single-threaded event-loop time model: it settles successfully at a known
time, settles with its own error at a known time, or never settles on its
own. -/
inductive OpBehavior where
  | completes (settleMs : Nat)
  | failsAt (settleMs : Nat)
  | never
deriving DecidableEq, Repr

/-- What the caller of `timeoutSafe` observes: a boolean value, or an
exception propagating out of the returned promise. -/
inductive RaceResult where
  | value (b : Bool)
  | raised
deriving DecidableEq, Repr

/-- The spec's contract, for comparison: `race(op, t)` is `true` iff the
operation completes successfully before the timeout elapses. -/
def opCompletesBefore (op : OpBehavior) (timeoutMs : Nat) : Bool :=
  match op with
  | .completes s => decide (s < timeoutMs)
  | _ => false

namespace DelayExample
/-! Embedding of `timeoutSafe` from `src/src/delay_example.cpp`. -/

/-- Function `timeoutSafe(task, timer, timeout)` of `delay_example.cpp`:
`task.then(return true).exclusiveJoin(timer.afterDelay(timeout).then(return
false))`. The exclusive join resolves with whichever branch settles first.
Case by case over the task's behaviour:
- completes at `s < timeout`: the `then(true)` branch settles first: `true`;
- completes at `s ≥ timeout`: the timeout branch settles first: `false`;
- fails at `s < timeout`: `then` has no failure arm, so the task's own
  rejection settles the join first and propagates to the caller;
- fails at `s ≥ timeout` or never settles: the timeout branch settles
  first: `false`.
(At `s = timeout` exactly, the timer branch, becoming ready at expiry
before the task's continuation is run, wins the join.) -/
def timeoutSafe (op : OpBehavior) (timeoutMs : Nat) : RaceResult :=
  match op with
  | .completes s => if s < timeoutMs then .value true else .value false
  | .failsAt s => if s < timeoutMs then .raised else .value false
  | .never => .value false

end DelayExample

namespace Part002
/-! Embedding of `timeoutSafe` from `src/unnamed/part_002` (the revised
delay example with a heap-allocated `kj::Canceler` and done flag, attached
to the race so both outlive it). -/

/-- Function `timeoutSafe(task, timer, timeout)` of `src/unnamed/part_002`:
`guardedTask = canceler.wrap(task).then(done = true; true).catch_(false)`
raced by `exclusiveJoin` against `timer.afterDelay(timeout).then(if !done
then canceler.cancel("timeout"); false else true)`. Case by case:
- completes at `s < timeout`: `guardedTask` resolves `true` first;
- completes at `s ≥ timeout`: at expiry the done flag is still unset, the
  wrapped task is cancelled and the timeout branch resolves `false` first;
- fails at `s < timeout`: the `catch_` arm converts the rejection into
  `false`, which wins the join;
- fails at `s ≥ timeout` or never settles: the timeout branch resolves
  `false` first (the cancelled task's rejection is absorbed by `catch_`).
No case lets an exception out of the returned promise. -/
def timeoutSafe (op : OpBehavior) (timeoutMs : Nat) : RaceResult :=
  match op with
  | .completes s => if s < timeoutMs then .value true else .value false
  | .failsAt _ => .value false
  | .never => .value false

end Part002

/-- C1: `timeoutSafe` as defined in `delay_example.cpp` propagates an
immediately-failing operation's exception to its caller instead of
yielding `false`, contradicting its own doc comment ("例外はスローされない")
and the spec; the revised `timeoutSafe` of `src/unnamed/part_002` returns
a boolean in every case, `true` exactly when the operation completes
before the timeout. -/
theorem c1_delay_example_timeoutSafe_raises :
    DelayExample.timeoutSafe (.failsAt 0) 1000 = .raised
    ∧ Part002.timeoutSafe (.failsAt 0) 1000 = .value false
    ∧ ∀ (op : OpBehavior) (t : Nat),
        Part002.timeoutSafe op t = .value (opCompletesBefore op t) := by
  refine ⟨by decide, by decide, ?_⟩
  intro op t
  cases op with
  | completes s =>
      by_cases h : s < t <;> simp [Part002.timeoutSafe, opCompletesBefore, h]
  | failsAt s => rfl
  | never => rfl

namespace KjCanceler
/-! Model of the external kj library's `kj::Canceler`, from its documented
contract in `kj/async.h`: `cancel(reason)` cancels all previously-wrapped
promises that have not already completed, making them reject with
`reason`; it keeps no latched state, so a promise wrapped after the cancel
call runs normally. The repository's own timer example depends on this:
it cancels and then restarts the same `RepeatingTimerWithCancel` (whose
`scheduleNext` wraps new delays on the same canceler) and observes further
firings ("2回目のテスト（再利用可能性の確認）"). -/

/-- Outcome of one promise wrapped on the canceler. -/
inductive WrapOutcome where
  | completed (atMs : Nat)
  | cancelledWith (atMs : Nat) (reason : String)
deriving DecidableEq, Repr

/-- Here `cancelAt` is the time and reason of the (single) `cancel` call, if
any; the wrapped promise is wrapped at `wrappedAt` and would settle on its
own at `settleAt`. It is aborted iff it is already wrapped and still
pending when `cancel` runs. -/
def wrapOutcome (cancelAt : Option (Nat × String)) (wrappedAt settleAt : Nat) :
    WrapOutcome :=
  match cancelAt with
  | none => .completed settleAt
  | some (t, reason) =>
      if wrappedAt ≤ t ∧ t < settleAt then .cancelledWith t reason
      else .completed settleAt

end KjCanceler

namespace RepeatingTimerWithCancel
/-! Embedding of `src/include/repeating_timer_with_cancel.hpp`. -/

/-- Method `scheduleNext` wraps `timer.afterDelay(interval)` on the shared
canceler; a chain link started at `startAt` settles at
`startAt + intervalMs` unless cancelled in between. -/
def scheduleNextWrap (cancelAt : Option (Nat × String)) (startAt intervalMs : Nat) :
    KjCanceler.WrapOutcome :=
  KjCanceler.wrapOutcome cancelAt startAt (startAt + intervalMs)

end RepeatingTimerWithCancel

/-- C7 counterexample: the scope is cancelled with reason "stop" at time 0;
`start` is called again at time 1, so `scheduleNext` wraps a fresh 2 ms
delay on the same `kj::Canceler`: that wrap completes normally at time 3
(the callback fires again) instead of immediately resolving into the
cancellation failure, because `kj::Canceler::cancel` only aborts
previously-wrapped promises. -/
theorem c7_counterexample_wrap_after_cancel_runs_normally :
    RepeatingTimerWithCancel.scheduleNextWrap (some (0, "stop")) 1 2
      = .completed 3 := by decide

/-- C7 amended: `cancel(reason)` resolves exactly the operations already
wrapped and still pending into the cancellation failure carrying `reason`;
an operation wrapped after the cancel call is unaffected and completes
normally (`kj::Canceler` keeps no latched cancelled state) — which is what
allows `RepeatingTimerWithCancel` to be restarted after `cancel`. -/
theorem c7_cancel_aborts_pending_wraps_only (t wrappedAt settleAt : Nat)
    (reason : String) :
    (wrappedAt ≤ t → t < settleAt →
      KjCanceler.wrapOutcome (some (t, reason)) wrappedAt settleAt
        = .cancelledWith t reason)
    ∧ (t < wrappedAt →
      KjCanceler.wrapOutcome (some (t, reason)) wrappedAt settleAt
        = .completed settleAt) := by
  constructor
  · intro h1 h2
    simp [KjCanceler.wrapOutcome, h1, h2]
  · intro h
    rw [KjCanceler.wrapOutcome]
    rw [if_neg (by omega)]

theorem c7_cancel_aborts_pending_wraps_only_witness :
    KjCanceler.wrapOutcome (some (5, "stop")) 1 9 = .cancelledWith 5 "stop"
    ∧ KjCanceler.wrapOutcome (some (0, "stop")) 1 3 = .completed 3 :=
  ⟨(c7_cancel_aborts_pending_wraps_only 5 1 9 "stop").1 (by decide) (by decide),
    (c7_cancel_aborts_pending_wraps_only 0 1 3 "stop").2 (by decide)⟩

namespace RepeatingTimerWithCancel

/-- The mutable members of `RepeatingTimerWithCancel` relevant to `start`:
the shared `interval` and `callback` fields (overwritten by every `start`
and read by all chains), plus the number of live self-rescheduling chains
registered in the `TaskSet` (each chain re-adds itself after each firing
until the canceler aborts it). Callbacks are identified by number. -/
structure TimerState where
  intervalMs : Nat
  callback : Nat
  chains : Nat
deriving DecidableEq, Repr

/-- Method `start(interval, callback)`: overwrites the two shared fields and
calls `scheduleNext()`, adding one more independent chain. There is no
check of an already-running state and no stopping of existing chains. -/
def start (m : TimerState) (intervalMs cb : Nat) : TimerState :=
  { intervalMs := intervalMs, callback := cb, chains := m.chains + 1 }

/-- One interval elapsing: every live chain's wrapped delay fires and runs
the currently stored callback once; the list collects the callback ids
invoked during the interval. -/
def tickInvocations (m : TimerState) : List Nat :=
  List.replicate m.chains m.callback

/-- Method `cancel(reason)`: `canceler.cancel` rejects every chain's pending
wrapped delay; each chain's `catch_` logs the cancellation and does not
reschedule, so all chains end together. -/
def cancel (m : TimerState) : TimerState :=
  { m with chains := 0 }

/-- A sequence of `start` calls with respective intervals and callbacks,
with no intervening `cancel`. -/
def startMany (m : TimerState) : List (Nat × Nat) → TimerState
  | [] => m
  | (i, cb) :: rest => startMany (start m i cb) rest

lemma startMany_chains (specs : List (Nat × Nat)) : ∀ m : TimerState,
    (startMany m specs).chains = m.chains + specs.length := by
  induction specs with
  | nil => intro m; simp [startMany]
  | cons x rest ih =>
      intro m
      obtain ⟨i, cb⟩ := x
      rw [startMany, ih (start m i cb)]
      simp [start]
      omega

lemma startMany_fields (specs : List (Nat × Nat)) : ∀ (m : TimerState) (i cb : Nat),
    specs.getLast? = some (i, cb) →
    (startMany m specs).intervalMs = i ∧ (startMany m specs).callback = cb := by
  induction specs with
  | nil => intro m i cb h; simp at h
  | cons x rest ih =>
      intro m i cb h
      obtain ⟨i0, cb0⟩ := x
      cases rest with
      | nil =>
          simp only [List.getLast?_singleton, Option.some_inj] at h
          rw [show ((i0, cb0) : Nat × Nat) = (i, cb) from h]
          exact ⟨rfl, rfl⟩
      | cons y t =>
          rw [List.getLast?_cons_cons] at h
          exact ih (start m i0 cb0) i cb h

end RepeatingTimerWithCancel

/-- C10: `RepeatingTimerWithCancel.start` is not guarded against being
called while already running: each of `k` start calls (with no intervening
cancel) adds one more independent self-rescheduling chain to the task set,
the shared interval and callback fields end up as those of the last call,
every interval the (latest) callback is invoked once per chain — `k` times
from a fresh timer — and `cancel` aborts all chains together (no further
invocations). -/
theorem c10_start_stacks_chains (m : RepeatingTimerWithCancel.TimerState)
    (specs : List (Nat × Nat)) (i cb : Nat)
    (hlast : specs.getLast? = some (i, cb)) :
    (RepeatingTimerWithCancel.startMany m specs).chains = m.chains + specs.length
    ∧ (RepeatingTimerWithCancel.startMany m specs).intervalMs = i
    ∧ (RepeatingTimerWithCancel.startMany m specs).callback = cb
    ∧ RepeatingTimerWithCancel.tickInvocations (RepeatingTimerWithCancel.startMany m specs)
        = List.replicate (m.chains + specs.length) cb
    ∧ RepeatingTimerWithCancel.tickInvocations
        (RepeatingTimerWithCancel.cancel (RepeatingTimerWithCancel.startMany m specs))
        = [] := by
  obtain ⟨hi, hcb⟩ := RepeatingTimerWithCancel.startMany_fields specs m i cb hlast
  have hch := RepeatingTimerWithCancel.startMany_chains specs m
  refine ⟨hch, hi, hcb, ?_, ?_⟩
  · rw [RepeatingTimerWithCancel.tickInvocations, hch, hcb]
  · rw [RepeatingTimerWithCancel.cancel, RepeatingTimerWithCancel.tickInvocations]
    rfl

theorem c10_start_stacks_chains_witness :
    RepeatingTimerWithCancel.tickInvocations
        (RepeatingTimerWithCancel.startMany ⟨0, 0, 0⟩ [(100, 1), (200, 2)])
      = [2, 2]
    ∧ RepeatingTimerWithCancel.tickInvocations
        (RepeatingTimerWithCancel.cancel
          (RepeatingTimerWithCancel.startMany ⟨0, 0, 0⟩ [(100, 1), (200, 2)]))
      = [] := by
  have h := c10_start_stacks_chains ⟨0, 0, 0⟩ [(100, 1), (200, 2)] 200 2 (by decide)
  exact ⟨by rw [h.2.2.2.1]; rfl, h.2.2.2.2⟩

/-- C3 amended: notification ids are strictly increasing and free of
reuse within each pull-mode stream object and within one push-mode
notifier instance (across all its subscriptions and ticks); but in pull
mode the counter is a member of each `StreamImpl`, so distinct
subscriptions of one notifier restart at id 0 and ids are reused across
them (see the counterexample). -/
theorem c3_ids_strictly_increasing_per_stream_and_push_instance
    (i : Nat) (s : NotifierServerExample.PullSystem)
    (ops : List NotifierServerExample.SysOp)
    (env : Nat → List PollingServer.WeakEntry → List PollingServer.WeakEntry)
    (now : Int) (n k counter : Nat) (subs : List PollingServer.WeakEntry) :
    List.Chain' (· < ·) (NotifierServerExample.issuedOnStream i s ops)
    ∧ (NotifierServerExample.issuedOnStream i s ops).Nodup
    ∧ List.Chain' (· < ·) (PollingServer.loopIssuedIds env now n k subs counter)
    ∧ (PollingServer.loopIssuedIds env now n k subs counter).Nodup := by
  have h1 := (NotifierServerExample.issuedOnStream_chain i ops s).1
  have h2 := (PollingServer.loopIssuedIds_chain env now n k subs counter).1
  refine ⟨h1, ?_, h2, ?_⟩
  · exact (List.chain'_iff_pairwise.1 h1).imp fun h => Nat.ne_of_lt h
  · exact (List.chain'_iff_pairwise.1 h2).imp fun h => Nat.ne_of_lt h
